import Mathlib

set_option synthInstance.maxHeartbeats 1000000
set_option maxHeartbeats 1000000
set_option maxRecDepth 4000

/-!
Verification of the zikade query-coordination core against its
natural-language specification.

The development shallowly embeds the Go source:

- the FollowUp broadcast state machine (brdcst package, src/unnamed/part_000);
- the PooledQueryBehaviour event actor (src/internal/coord/query.go);
- PooledQueryConfig validation and construction defaults;
- the byteString protobuf helper (src/v2/pb/bytestring.go).

The query pool state machine (internal/coord/query's Pool) is not part of
the provided sources; both the FollowUp machine and the behaviour only
consume its Advance results, so the pool is abstracted as a response
oracle: every Advance step takes the pool response as an input, and
theorems either quantify over all responses or supply concrete,
spec-realistic responses.

NodeID values are modelled as Nat (Go NodeID has a string form used as
map key; keying is injective). Keys, messages and query ids are likewise
Nat. Go maps are modelled as lists: key-sets as List Nat with
insert-if-absent, and the failed map as an association list with
overwrite-on-insert. Go map iteration picks an arbitrary element; the
embedding deterministically picks the list head, a refinement of the
source's nondeterminism.
-/

namespace Zikade

/-- Insert a key into a Go-map key set: overwriting an existing key
leaves the set unchanged, a new key is added. -/
def mapInsert (l : List Nat) (n : Nat) : List Nat :=
  if n ∈ l then l else l ++ [n]

/-- Delete a key from a Go-map key set. -/
def mapDelete (l : List Nat) (n : Nat) : List Nat :=
  l.filter (fun m => m ≠ n)

/-- Insert into the failed map (keyed association list), overwriting any
previous entry for the same key. -/
def failedInsert (l : List (Nat × String)) (n : Nat) (e : String) : List (Nat × String) :=
  l.filter (fun p => p.1 ≠ n) ++ [(n, e)]

/-- Look up a key in the failed map. -/
def lookupF : List (Nat × String) → Nat → Option String
  | [], _ => none
  | p :: rest, n => if p.1 = n then some p.2 else lookupF rest n

/-- The keys of the failed map. -/
def failedKeys (l : List (Nat × String)) : List Nat :=
  l.map Prod.fst

theorem mem_mapInsert (l : List Nat) (n m : Nat) :
    m ∈ mapInsert l n ↔ m ∈ l ∨ m = n := by
  unfold mapInsert
  split
  · constructor
    · exact fun h => Or.inl h
    · rintro (h | rfl)
      · exact h
      · assumption
  · simp [List.mem_append]

theorem mem_mapDelete (l : List Nat) (n m : Nat) :
    m ∈ mapDelete l n ↔ m ∈ l ∧ m ≠ n := by
  unfold mapDelete
  simp

theorem nodup_mapInsert (l : List Nat) (n : Nat) (h : l.Nodup) :
    (mapInsert l n).Nodup := by
  unfold mapInsert
  split
  · exact h
  · simp_all [List.nodup_append]

theorem nodup_mapDelete (l : List Nat) (n : Nat) (h : l.Nodup) :
    (mapDelete l n).Nodup :=
  h.filter _

theorem mem_failedKeys (l : List (Nat × String)) (n : Nat) :
    n ∈ failedKeys l ↔ ∃ e, (n, e) ∈ l := by
  unfold failedKeys
  constructor
  · intro h
    rcases List.mem_map.mp h with ⟨p, hp, rfl⟩
    exact ⟨p.2, hp⟩
  · rintro ⟨e, he⟩
    exact List.mem_map.mpr ⟨(n, e), he, rfl⟩

theorem mem_failedKeys_failedInsert (l : List (Nat × String)) (n e m) :
    m ∈ failedKeys (failedInsert l n e) ↔ m ∈ failedKeys l ∨ m = n := by
  unfold failedInsert failedKeys
  simp only [List.map_append, List.mem_append, List.mem_map]
  constructor
  · rintro (⟨p, hp, rfl⟩ | h)
    · exact Or.inl ⟨p, (List.mem_filter.mp hp).1, rfl⟩
    · simp_all
  · rintro (⟨p, hp, rfl⟩ | rfl)
    · by_cases hk : p.1 = n
      · right; simpa using hk.symm
      · left
        exact ⟨p, List.mem_filter.mpr ⟨hp, by simpa using hk⟩, rfl⟩
    · simp

theorem nodup_failedKeys_failedInsert (l : List (Nat × String)) (n e)
    (h : (failedKeys l).Nodup) : (failedKeys (failedInsert l n e)).Nodup := by
  unfold failedInsert failedKeys
  rw [List.map_append, List.nodup_append]
  refine ⟨?_, by simp, ?_⟩
  · have : (l.filter (fun p => p.1 ≠ n)).map Prod.fst
        = ((l.map Prod.fst).filter (fun k => k ≠ n)) := by
      rw [List.filter_map]
      rfl
    rw [this]
    exact h.filter _
  · intro a ha
    simp only [List.mem_map] at ha
    rcases ha with ⟨p, hp, rfl⟩
    have := (List.mem_filter.mp hp).2
    simp only [List.map_cons, List.map_nil, List.mem_singleton]
    intro hcon
    rw [hcon] at this
    simp at this

theorem lookupF_append (l1 l2 : List (Nat × String)) (m : Nat) :
    lookupF (l1 ++ l2) m =
      match lookupF l1 m with
      | some v => some v
      | none => lookupF l2 m := by
  induction l1 with
  | nil => simp [lookupF]
  | cons p rest ih =>
    simp only [List.cons_append, lookupF]
    split
    · rfl
    · exact ih

theorem lookupF_filter_ne (l : List (Nat × String)) (k m : Nat) (h : m ≠ k) :
    lookupF (l.filter (fun p => p.1 ≠ k)) m = lookupF l m := by
  induction l with
  | nil => rfl
  | cons p rest ih =>
    by_cases hk : p.1 = k
    · rw [List.filter_cons, if_neg (by simpa using hk), lookupF, if_neg (by rw [hk]; exact fun hc => h hc.symm), ih]
    · rw [List.filter_cons, if_pos (by simpa using hk), lookupF, lookupF]
      split
      · rfl
      · exact ih

theorem lookupF_filter_self (l : List (Nat × String)) (k : Nat) :
    lookupF (l.filter (fun p => p.1 ≠ k)) k = none := by
  induction l with
  | nil => rfl
  | cons p rest ih =>
    by_cases hk : p.1 = k
    · rw [List.filter_cons, if_neg (by simpa using hk)]
      exact ih
    · rw [List.filter_cons, if_pos (by simpa using hk), lookupF, if_neg hk]
      exact ih

theorem lookupF_failedInsert (l : List (Nat × String)) (n : Nat) (e : String) (m : Nat) :
    lookupF (failedInsert l n e) m = if m = n then some e else lookupF l m := by
  unfold failedInsert
  rw [lookupF_append]
  by_cases h : m = n
  · subst h
    rw [lookupF_filter_self]
    simp [lookupF]
  · rw [lookupF_filter_ne l n m h, if_neg h]
    split
    · next v heq => exact heq.symm
    · next heq =>
      rw [lookupF, if_neg (fun hc => h hc.symm), lookupF]
      exact heq.symm

/-- Move every node of a list into the failed map with the error text
cancelled, as the stop block of FollowUp.Advance does. -/
def cancelAll (failed : List (Nat × String)) (ns : List Nat) : List (Nat × String) :=
  ns.foldl (fun acc n => failedInsert acc n ("cancelled")) failed

theorem lookupF_cancelAll (failed : List (Nat × String)) (ns : List Nat) (m : Nat) :
    lookupF (cancelAll failed ns) m =
      if m ∈ ns then some ("cancelled") else lookupF failed m := by
  induction ns generalizing failed with
  | nil => simp [cancelAll]
  | cons n rest ih =>
    unfold cancelAll
    rw [List.foldl_cons]
    have := ih (failedInsert failed n ("cancelled"))
    unfold cancelAll at this
    rw [this, lookupF_failedInsert]
    by_cases hm : m ∈ rest
    · simp [hm]
    · by_cases hn : m = n <;> simp [hm, hn]

theorem mem_failedKeys_cancelAll (failed : List (Nat × String)) (ns : List Nat) (m : Nat) :
    m ∈ failedKeys (cancelAll failed ns) ↔ m ∈ failedKeys failed ∨ m ∈ ns := by
  induction ns generalizing failed with
  | nil => simp [cancelAll]
  | cons n rest ih =>
    unfold cancelAll
    rw [List.foldl_cons]
    have := ih (failedInsert failed n ("cancelled"))
    unfold cancelAll at this
    rw [this, mem_failedKeys_failedInsert, List.mem_cons]
    tauto

theorem nodup_failedKeys_cancelAll (failed : List (Nat × String)) (ns : List Nat)
    (h : (failedKeys failed).Nodup) : (failedKeys (cancelAll failed ns)).Nodup := by
  induction ns generalizing failed with
  | nil => simpa [cancelAll] using h
  | cons n rest ih =>
    unfold cancelAll
    rw [List.foldl_cons]
    have := ih (failedInsert failed n ("cancelled")) (nodup_failedKeys_failedInsert _ _ _ h)
    unfold cancelAll at this
    exact this

/-! ### The FollowUp broadcast state machine (brdcst package, src/unnamed/part_000)

The struct FollowUp and its Advance / handleEvent / advancePool methods.
The underlying query pool is abstracted: handleEvent may produce a pool
event; when it does, the pool's reply is the FPoolState input of Advance
(the response oracle). The message generator msgFunc is an opaque
function of the target and is modelled by the identity. -/

/-- Message generator of the FollowUp (opaque payload, never inspected by
the machine); modelled as the target key itself. -/
def msgFunc (target : Nat) : Nat := target

/-- BroadcastEvent: the events FollowUp.handleEvent accepts (any other
event makes the Go code panic). -/
inductive BroadcastEvent where
  | stop
  | nodeResponse (nid : Nat) (closerNodes : List Nat)
  | nodeFailure (nid : Nat) (err : String)
  | storeRecordSuccess (nid : Nat)
  | storeRecordFailure (nid : Nat) (err : String)
  | poll
deriving DecidableEq

/-- The query.PoolEvent values FollowUp.handleEvent can produce. -/
inductive FPoolEvent where
  | stopQuery (qid : Nat)
  | nodeResponse (qid nid : Nat) (closerNodes : List Nat)
  | nodeFailure (qid nid : Nat) (err : String)
  | addFindCloserQuery (qid target : Nat) (seed : List Nat)
  | poll
deriving DecidableEq

/-- The query.PoolState values FollowUp.advancePool handles (any other
pool state makes the Go code panic). -/
inductive FPoolState where
  | findCloser (qid nid target : Nat)
  | waitingAtCapacity
  | waitingWithCapacity
  | queryFinished (closestNodes : List Nat)
  | queryTimeout
  | idle
deriving DecidableEq

/-- BroadcastState: the output states of FollowUp.Advance. The Go
StateBroadcastWaiting carries an optional query id that no caller of the
sources reads; it is dropped here. -/
inductive BroadcastState where
  | findCloser (qid nid target : Nat)
  | storeRecord (qid nid target msg : Nat)
  | waiting
  | finished (qid : Nat) (contacted : List Nat) (errors : List (Nat × String))
  | idle
deriving DecidableEq

/-- The FollowUp struct: queryID, configured target, seed, the started
flag, the closest list filled on query completion, and the todo, waiting,
success and failed maps (keyed by the node's string form). -/
structure FollowUp where
  queryID : Nat
  target : Nat
  seed : List Nat
  started : Bool
  closest : List Nat
  todo : List Nat
  waiting : List Nat
  success : List Nat
  failed : List (Nat × String)
deriving DecidableEq

/-- NewFollowUp: started is false and every collection is empty. -/
def NewFollowUp (qid target : Nat) (seed : List Nat) : FollowUp :=
  { queryID := qid
    target := target
    seed := seed
    started := false
    closest := []
    todo := []
    waiting := []
    success := []
    failed := [] }

/-- FollowUp.isQueryDone: the query phase has finished exactly when the
closest list is non-empty. -/
def FollowUp.isQueryDone (f : FollowUp) : Bool :=
  f.closest.length != 0

/-- FollowUp.handleEvent: maps a BroadcastEvent to an optional query pool
event, handling store-record responses and the started flag in place. -/
def FollowUp.handleEvent (f : FollowUp) (ev : BroadcastEvent) : FollowUp × Option FPoolEvent :=
  match ev with
  | .stop =>
    if f.isQueryDone then (f, none)
    else (f, some (.stopQuery f.queryID))
  | .nodeResponse nid closer => (f, some (.nodeResponse f.queryID nid closer))
  | .nodeFailure nid err => (f, some (.nodeFailure f.queryID nid err))
  | .storeRecordSuccess nid =>
    ({ f with waiting := mapDelete f.waiting nid, success := mapInsert f.success nid }, none)
  | .storeRecordFailure nid err =>
    ({ f with waiting := mapDelete f.waiting nid, failed := failedInsert f.failed nid err }, none)
  | .poll =>
    if !f.started then
      ({ f with started := true }, some (.addFindCloserQuery f.queryID f.target f.seed))
    else (f, some .poll)

/-- FollowUp.advancePool: folds the pool response into the machine; a some
result is a terminal broadcast state returned directly by Advance. On
QueryFinished with a non-empty closest list the list is recorded and every
closest node is put into todo. -/
def FollowUp.advancePool (f : FollowUp) (st : FPoolState) : FollowUp × Option BroadcastState :=
  match st with
  | .findCloser qid nid target => (f, some (.findCloser qid nid target))
  | .waitingAtCapacity => (f, some .waiting)
  | .waitingWithCapacity => (f, some .waiting)
  | .queryFinished cn =>
    if cn.length == 0 then
      (f, some (.finished f.queryID [] []))
    else
      ({ f with closest := cn, todo := cn.foldl mapInsert f.todo }, none)
  | .queryTimeout => (f, some (.finished f.queryID [] []))
  | .idle => (f, none)

/-- The tail of FollowUp.Advance after the pool step did not return a
terminal state: the stop block, the todo drain loop (the Go range picks an
arbitrary todo entry; the embedding picks the list head), the waiting
check and the finished check, in source order. -/
def FollowUp.finishStep (f : FollowUp) (isStop : Bool) : FollowUp × BroadcastState :=
  let f1 :=
    if isStop then
      { f with todo := [], waiting := [],
               failed := cancelAll (cancelAll f.failed f.todo) f.waiting }
    else f
  match f1.todo with
  | n :: rest =>
    ({ f1 with todo := rest, waiting := mapInsert f1.waiting n },
      .storeRecord f1.queryID n f1.target (msgFunc f1.target))
  | [] =>
    if 0 < f1.waiting.length then (f1, .waiting)
    else if isStop || (f1.todo.length == 0 && f1.closest.length != 0) then
      (f1, .finished f1.queryID f1.closest f1.failed)
    else (f1, .idle)

/-- Whether the event is the EventBroadcastStop type assertion of
FollowUp.Advance. -/
def isStopEvent : BroadcastEvent → Bool
  | .stop => true
  | _ => false

/-- FollowUp.Advance: handle the event; if it maps to a pool event,
advance the pool (the response given by the presp oracle input) and
return its state when terminal; otherwise run the stop block, the todo
drain, the waiting and the finished checks. -/
def FollowUp.Advance (f : FollowUp) (ev : BroadcastEvent) (presp : FPoolState) :
    FollowUp × BroadcastState :=
  let isStop : Bool := isStopEvent ev
  match f.handleEvent ev with
  | (f1, some _) =>
    match f1.advancePool presp with
    | (f2, some out) => (f2, out)
    | (f2, none) => f2.finishStep isStop
  | (f1, none) => f1.finishStep isStop

/-- Run a FollowUp over a trace of events paired with pool responses
(the response is ignored on steps that produce no pool event). -/
def FollowUp.run (f : FollowUp) (tr : List (BroadcastEvent × FPoolState)) : FollowUp :=
  tr.foldl (fun g p => (g.Advance p.1 p.2).1) f

/-- Run a FollowUp over a trace, collecting the emitted broadcast states
in order. -/
def FollowUp.runOuts (f : FollowUp) (tr : List (BroadcastEvent × FPoolState)) :
    List BroadcastState :=
  (tr.foldl (fun acc p => ((acc.1.Advance p.1 p.2).1, acc.2 ++ [(acc.1.Advance p.1 p.2).2]))
    (f, ([] : List BroadcastState))).2

/-- States of a FollowUp reachable under any event sequence and any pool
responses. -/
inductive FollowUp.Reachable : FollowUp → Prop where
  | init (qid target : Nat) (seed : List Nat) : FollowUp.Reachable (NewFollowUp qid target seed)
  | step (f : FollowUp) (ev : BroadcastEvent) (r : FPoolState) :
      FollowUp.Reachable f → FollowUp.Reachable (f.Advance ev r).1

/-! ### PooledQueryConfig (src/internal/coord/query.go, lines 21-108)

Clock, Logger and Tracer are pointers/interfaces whose only relevant
property is nil-ness; each is modelled as a Bool that is true when the
field is non-nil. Durations are Go int64 nanoseconds, modelled as Int. -/

/-- Error returned for invalid configurations (errs.ConfigurationError). -/
structure ConfigurationError where
  component : String
  errMsg : String
deriving DecidableEq

/-- PooledQueryConfig from src/internal/coord/query.go. -/
structure PooledQueryConfig where
  clockSet : Bool
  loggerSet : Bool
  tracerSet : Bool
  concurrency : Int
  timeout : Int
  requestConcurrency : Int
  requestTimeout : Int
deriving DecidableEq

/-- PooledQueryConfig.Validate from src/internal/coord/query.go lines 45-95:
checks run in source order, first failure is returned; none means valid. -/
def PooledQueryConfig.Validate (cfg : PooledQueryConfig) : Option ConfigurationError :=
  if cfg.clockSet = false then
    some ⟨("PooledQueryConfig"), ("clock must not be nil")⟩
  else if cfg.loggerSet = false then
    some ⟨("PooledQueryConfig"), ("logger must not be nil")⟩
  else if cfg.tracerSet = false then
    some ⟨("PooledQueryConfig"), ("tracer must not be nil")⟩
  else if cfg.concurrency < 1 then
    some ⟨("PooledQueryConfig"), ("query concurrency must be greater than zero")⟩
  else if cfg.timeout < 1 then
    some ⟨("PooledQueryConfig"), ("query timeout must be greater than zero")⟩
  else if cfg.requestConcurrency < 1 then
    some ⟨("PooledQueryConfig"), ("request concurrency must be greater than zero")⟩
  else if cfg.requestTimeout < 1 then
    some ⟨("PooledQueryConfig"), ("request timeout must be greater than zero")⟩
  else
    none

/-- DefaultPooledQueryConfig from src/internal/coord/query.go lines 97-108.
Durations in nanoseconds: 5 minutes and 1 minute. -/
def DefaultPooledQueryConfig : PooledQueryConfig :=
  { clockSet := true
    loggerSet := true
    tracerSet := true
    concurrency := 3
    timeout := 300000000000
    requestConcurrency := 3
    requestTimeout := 60000000000 }

/-- Modelled from the spec: the query pool configuration (the pool
implementation internal/coord/query.Pool is not under src). Section 6 of
the spec: the pool is constructed with concurrency, timeout,
request concurrency, request timeout and a clock, and construction fails
when any of the constraints concurrency >= 1, timeout >= 1ns,
request_concurrency >= 1, request_timeout >= 1ns, non-nil clock is
violated. -/
structure PoolConfig where
  clockSet : Bool
  concurrency : Int
  timeout : Int
  queryConcurrency : Int
  requestTimeout : Int
deriving DecidableEq

/-- Modelled from the spec: query.DefaultPoolConfig (not under src);
spec section 6 defaults: concurrency 3, timeout 5 minutes,
request concurrency 3, request timeout 1 minute, live clock. -/
def DefaultPoolConfig : PoolConfig :=
  { clockSet := true
    concurrency := 3
    timeout := 300000000000
    queryConcurrency := 3
    requestTimeout := 60000000000 }

/-- Modelled from the spec: query.NewPool (not under src) succeeds exactly
when the configuration satisfies the constraints of spec section 6. -/
def NewPool (c : PoolConfig) : Except String Unit :=
  if c.clockSet = false then .error ("clock must not be nil")
  else if c.concurrency < 1 then .error ("pool concurrency must be greater than zero")
  else if c.timeout < 1 then .error ("pool timeout must be greater than zero")
  else if c.queryConcurrency < 1 then .error ("query concurrency must be greater than zero")
  else if c.requestTimeout < 1 then .error ("request timeout must be greater than zero")
  else .ok ()

/-- Errors of NewPooledQueryBehaviour: a configuration error from
Validate, or a wrapped pool-construction error. -/
inductive NewBehaviourError where
  | config (e : ConfigurationError)
  | poolWrapped (msg : String)
deriving DecidableEq

/-- NewPooledQueryBehaviour from src/internal/coord/query.go lines 142-168,
restricted to the configuration it ends up running with (the behaviour's
cfg field). A nil cfg argument is modelled as none. The query-pool
sub-config is built by overwriting the default pool config with the
behaviour's clock, concurrency, timeout, request concurrency and request
timeout, exactly as in the source. -/
def NewPooledQueryBehaviour (cfg? : Option PooledQueryConfig) :
    Except NewBehaviourError PooledQueryConfig :=
  match cfg? with
  | none =>
    let cfg := DefaultPooledQueryConfig
    let qpCfg : PoolConfig :=
      { DefaultPoolConfig with
        clockSet := cfg.clockSet
        concurrency := cfg.concurrency
        timeout := cfg.timeout
        queryConcurrency := cfg.requestConcurrency
        requestTimeout := cfg.requestTimeout }
    match NewPool qpCfg with
    | .error e => .error (.poolWrapped e)
    | .ok _ => .ok cfg
  | some cfg =>
    match cfg.Validate with
    | some e => .error (.config e)
    | none =>
      let qpCfg : PoolConfig :=
        { DefaultPoolConfig with
          clockSet := cfg.clockSet
          concurrency := cfg.concurrency
          timeout := cfg.timeout
          queryConcurrency := cfg.requestConcurrency
          requestTimeout := cfg.requestTimeout }
      match NewPool qpCfg with
      | .error e => .error (.poolWrapped e)
      | .ok _ => .ok cfg

/-! ### PooledQueryBehaviour (src/internal/coord/query.go, lines 110-427)

The behaviour owns a queue of inbound events, a queue of pending
outbound events and the waiters map, and drives the abstract query pool.
Pool advancement is abstracted by a response oracle (a function from the
pool event sent to the pool state returned). Waiter callbacks (Notify and
Close on the registered NotifyCloser) are recorded as an emitted list of
WaiterAction values in call order. Waiter map entries are never removed
by the source, so the map is a set of query ids. -/

/-- The inbound BehaviourEvent values handled by
PooledQueryBehaviour.perfomNextInbound (any other event panics). The
notify flag of the start events models whether ev.Notify is non-nil. -/
inductive InEvent where
  | startFindCloserQuery (qid target : Nat) (seed : List Nat) (notify : Bool)
  | startMessageQuery (qid target msg : Nat) (seed : List Nat) (notify : Bool)
  | stopQuery (qid : Nat)
  | getCloserNodesSuccess (qid toN : Nat) (closerNodes : List Nat)
  | getCloserNodesFailure (qid toN : Nat) (err : String)
  | sendMessageSuccess (qid toN : Nat) (closerNodes : List Nat) (response : Nat)
  | sendMessageFailure (qid toN : Nat) (err : String)
deriving DecidableEq

/-- The outbound BehaviourEvent values the behaviour emits or queues. -/
inductive OutEvent where
  | outboundGetCloserNodes (qid toN target : Nat)
  | outboundSendMessage (qid toN msg : Nat)
  | addNode (nid : Nat)
  | notifyNonConnectivity (nid : Nat)
deriving DecidableEq

/-- The query.PoolEvent values the behaviour sends to the pool. -/
inductive BPoolEvent where
  | addFindCloserQuery (qid target : Nat) (seed : List Nat)
  | addQuery (qid target msg : Nat) (seed : List Nat)
  | stopQuery (qid : Nat)
  | nodeResponse (qid nid : Nat) (closerNodes : List Nat)
  | nodeFailure (qid nid : Nat) (err : String)
  | poll
deriving DecidableEq

/-- The query.PoolState values PooledQueryBehaviour.advancePool handles
(any other pool state panics). -/
inductive BPoolState where
  | findCloser (qid nid target : Nat)
  | sendMessage (qid nid msg : Nat)
  | waitingAtCapacity
  | waitingWithCapacity
  | queryFinished (qid : Nat) (closestNodes : List Nat)
  | queryTimeout (qid : Nat)
  | idle
deriving DecidableEq

/-- Calls made on a query's registered waiter: a progress notification, a
query-finished notification, or closing the waiter. -/
inductive WaiterAction where
  | progressed (qid nid : Nat)
  | finished (qid : Nat) (closestNodes : List Nat)
  | close (qid : Nat)
deriving DecidableEq

/-- The mutable state of PooledQueryBehaviour: the registered waiters,
the queued outbound events and the queued inbound events. -/
structure PooledQueryBehaviour where
  waiters : List Nat
  pendingOutbound : List OutEvent
  pendingInbound : List InEvent
deriving DecidableEq

/-- Register a waiter for a query id (map assignment). -/
def waitersInsert (w : List Nat) (qid : Nat) : List Nat :=
  if qid ∈ w then w else w ++ [qid]

/-- queueAddNodeEvents: queue one EventAddNode outbound event per node. -/
def PooledQueryBehaviour.queueAddNodeEvents (p : PooledQueryBehaviour) (nodes : List Nat) :
    PooledQueryBehaviour :=
  { p with pendingOutbound := p.pendingOutbound ++ nodes.map OutEvent.addNode }

/-- queueNonConnectivityEvent: queue one EventNotifyNonConnectivity. -/
def PooledQueryBehaviour.queueNonConnectivityEvent (p : PooledQueryBehaviour) (nid : Nat) :
    PooledQueryBehaviour :=
  { p with pendingOutbound := p.pendingOutbound ++ [OutEvent.notifyNonConnectivity nid] }

/-- The switch of perfomNextInbound: translate one inbound event to the
pool event to send, registering waiters, queueing side events and
notifying waiters of progress as the source does. -/
def PooledQueryBehaviour.translateInbound (p : PooledQueryBehaviour) (ev : InEvent) :
    PooledQueryBehaviour × BPoolEvent × List WaiterAction :=
  match ev with
  | .startFindCloserQuery qid target seed notify =>
    (if notify then { p with waiters := waitersInsert p.waiters qid } else p,
      .addFindCloserQuery qid target seed, [])
  | .startMessageQuery qid target msg seed notify =>
    (if notify then { p with waiters := waitersInsert p.waiters qid } else p,
      .addQuery qid target msg seed, [])
  | .stopQuery qid => (p, .stopQuery qid, [])
  | .getCloserNodesSuccess qid toN closer =>
    (p.queueAddNodeEvents closer, .nodeResponse qid toN closer,
      if qid ∈ p.waiters then [.progressed qid toN] else [])
  | .getCloserNodesFailure qid toN err =>
    (p.queueNonConnectivityEvent toN, .nodeFailure qid toN err, [])
  | .sendMessageSuccess qid toN closer _resp =>
    (p.queueAddNodeEvents closer, .nodeResponse qid toN closer,
      if qid ∈ p.waiters then [.progressed qid toN] else [])
  | .sendMessageFailure qid toN err =>
    (p.queueNonConnectivityEvent toN, .nodeFailure qid toN err, [])

/-- PooledQueryBehaviour.advancePool: fold one pool state into the
behaviour. Returns the outbound event to hand back (some means the Go
term flag is true) and the waiter actions performed. On
StatePoolQueryTimeout the source does nothing (a bare TODO). -/
def PooledQueryBehaviour.advancePool (p : PooledQueryBehaviour) (st : BPoolState) :
    PooledQueryBehaviour × Option OutEvent × List WaiterAction :=
  match st with
  | .findCloser qid nid target => (p, some (.outboundGetCloserNodes qid nid target), [])
  | .sendMessage qid nid msg => (p, some (.outboundSendMessage qid nid msg), [])
  | .waitingAtCapacity => (p, none, [])
  | .waitingWithCapacity => (p, none, [])
  | .queryFinished qid cn =>
    (p, none, if qid ∈ p.waiters then [.finished qid cn, .close qid] else [])
  | .queryTimeout _ => (p, none, [])
  | .idle => (p, none, [])

/-- nextPendingOutbound: pop the first queued outbound event, if any. -/
def PooledQueryBehaviour.nextPendingOutbound (p : PooledQueryBehaviour) :
    PooledQueryBehaviour × Option OutEvent :=
  match p.pendingOutbound with
  | [] => (p, none)
  | o :: os => ({ p with pendingOutbound := os }, some o)

/-- perfomNextInbound (source spelling kept): pop the next inbound event,
translate it and advance the pool with the translated event; the pool's
reply is given by the oracle. Without inbound work it returns no event. -/
def PooledQueryBehaviour.perfomNextInbound (p : PooledQueryBehaviour)
    (orc : BPoolEvent → BPoolState) :
    PooledQueryBehaviour × Option OutEvent × List WaiterAction :=
  match p.pendingInbound with
  | [] => (p, none, [])
  | e :: rest =>
    let t := PooledQueryBehaviour.translateInbound { p with pendingInbound := rest } e
    let a := PooledQueryBehaviour.advancePool t.1 (orc t.2.1)
    (a.1, a.2.1, t.2.2 ++ a.2.2)

/-- PooledQueryBehaviour.Perform (src lines 197-226): drain one queued
outbound event; else perform the next inbound event; else poll the pool;
else return any outbound work queued meanwhile (nil and false when there
is none). -/
def PooledQueryBehaviour.Perform (p : PooledQueryBehaviour) (orc : BPoolEvent → BPoolState) :
    PooledQueryBehaviour × Option OutEvent × List WaiterAction :=
  match p.pendingOutbound with
  | o :: os => ({ p with pendingOutbound := os }, some o, [])
  | [] =>
    let r2 := p.perfomNextInbound orc
    match r2.2.1 with
    | some o => (r2.1, some o, r2.2.2)
    | none =>
      let r3 := r2.1.advancePool (orc .poll)
      match r3.2.1 with
      | some o => (r3.1, some o, r2.2.2 ++ r3.2.2)
      | none =>
        let r4 := r3.1.nextPendingOutbound
        (r4.1, r4.2, r2.2.2 ++ r3.2.2)

/-! ### byteString (src/v2/pb/bytestring.go)

A Go *byteString receiver is an optional byte string: none models a nil
pointer, some s a pointer to the string s. Bytes are modelled as Nat. -/

/-- byteString.Marshal: a nil receiver is an error, otherwise the byte
slice of the string is returned. -/
def byteStringMarshal (b : Option (List Nat)) : Except String (List Nat) :=
  match b with
  | none => .error ("empty byte string")
  | some s => .ok s

/-- byteString.Unmarshal sets the receiver to the given data and never
fails; the resulting string value is the data itself. -/
def byteStringUnmarshal (data : List Nat) : List Nat :=
  data

/-- byteString.Equal: two non-nil receivers compare by string value;
otherwise equal only when both are nil. -/
def byteStringEqual (b other : Option (List Nat)) : Bool :=
  match b, other with
  | some x, some y => x == y
  | none, none => true
  | _, _ => false


/-! ## Claim theorems -/

theorem advancePool_state_eq (p : PooledQueryBehaviour) (st : BPoolState) :
    (p.advancePool st).1 = p := by
  cases st <;> rfl

/-- Claim C1, behaviour of the code at the failing input: when the pool
reports StatePoolQueryTimeout, the behaviour's advancePool performs no
waiter action at all and leaves the behaviour unchanged — the timed-out
query's registered waiter is neither sent any terminal event nor closed
(the source's case is a bare TODO). The claim and spec section 9 mandate
a dedicated QueryTimeout terminal event delivered to the waiter before
closing it, which the code does not do. -/
theorem claim_c1_queryTimeout_noop (p : PooledQueryBehaviour) (qid : Nat) :
    p.advancePool (.queryTimeout qid) = (p, none, []) := rfl

/-- Event trace refuting claim C2: the closest-node query discovers node
5, the record is stored at 5, Finished is emitted, and a further Poll
with an idle pool emits Finished a second time. -/
def c2Trace : List (BroadcastEvent × FPoolState) :=
  [(.poll, .findCloser 1 5 2),
   (.nodeResponse 5 [], .queryFinished [5]),
   (.storeRecordSuccess 5, .idle),
   (.poll, .idle)]

/-- Number of Finished states in an output list. -/
def countFinished (outs : List BroadcastState) : Nat :=
  (outs.filter (fun o => match o with | .finished _ _ _ => true | _ => false)).length

/-- Claim C2 is false as stated: a FollowUp broadcast run on the concrete
trace c2Trace emits the Finished state twice — the Poll after the first
Finished produces a second one. -/
theorem claim_c2_counterexample :
    countFinished (FollowUp.runOuts (NewFollowUp 1 2 [5]) c2Trace) = 2 := by decide

/-- Claim C2 (amended): whenever todo and waiting are empty and closest
is non-empty, an Advance on Poll with an idle pool emits the Finished
state carrying the full closest list as contacted and the failed map as
errors, and leaves the machine unchanged — so Finished is re-emitted by
every further such Advance rather than exactly once. -/
theorem claim_c2_amended (f : FollowUp) (h1 : f.started = true) (h2 : f.todo = [])
    (h3 : f.waiting = []) (h4 : f.closest ≠ []) :
    f.Advance .poll .idle = (f, .finished f.queryID f.closest f.failed) := by
  unfold FollowUp.Advance FollowUp.handleEvent
  simp only [h1, Bool.not_true]
  unfold FollowUp.advancePool FollowUp.finishStep
  simp only [isStopEvent, if_false, h2, h3]
  cases hc : f.closest with
  | nil => exact absurd hc h4
  | cons a l => simp [isStopEvent, h2, h3, hc]

/-- A FollowUp machine whose store phase has completed: used to witness
claim_c2_amended at a concrete input. -/
def c2DoneState : FollowUp :=
  { queryID := 1, target := 2, seed := [5], started := true, closest := [5],
    todo := [], waiting := [], success := [5], failed := [] }

/-- Witness for claim_c2_amended at a concrete machine. -/
theorem claim_c2_amended_witness :
    FollowUp.Advance c2DoneState .poll .idle = (c2DoneState, .finished 1 [5] []) :=
  claim_c2_amended c2DoneState rfl rfl rfl (by decide)

/-- The behaviour of Perform as claim C4 states it, for comparison with
the source: (1) if an outbound event is queued, dequeue and return it;
else (2) if an inbound event is queued, pop it, translate it to a pool
event, advance the pool and return or enqueue the resulting outbound
events; else (3) advance the pool with a Poll event; else (4) no event. -/
def PerformClaimed (p : PooledQueryBehaviour) (orc : BPoolEvent → BPoolState) :
    PooledQueryBehaviour × Option OutEvent × List WaiterAction :=
  match p.pendingOutbound with
  | o :: os => ({ p with pendingOutbound := os }, some o, [])
  | [] =>
    match p.pendingInbound with
    | _ :: _ => p.perfomNextInbound orc
    | [] =>
      let r3 := p.advancePool (orc .poll)
      (r3.1, r3.2.1, r3.2.2)

/-- Concrete behaviour state refuting claim C4: one queued inbound
success response for query 1 and nothing else. -/
def c4State : PooledQueryBehaviour :=
  { waiters := [], pendingOutbound := [], pendingInbound := [.getCloserNodesSuccess 1 5 []] }

/-- Pool responses for the C4 counterexample: the inbound response
finishes query 1, and the subsequent Poll hands out work for query 2. -/
def c4Oracle : BPoolEvent → BPoolState :=
  fun pe =>
    match pe with
    | .nodeResponse _ _ _ => .queryFinished 1 [5]
    | .poll => .findCloser 2 6 7
    | _ => .idle

/-- Claim C4 is false as stated: at c4State with pool responses c4Oracle,
an inbound event is queued, yet Perform advances the pool with a Poll
event in the same call and returns the FindCloser instruction produced by
that Poll — under the claimed strict priority order the call would return
no event. -/
theorem claim_c4_counterexample :
    (PooledQueryBehaviour.Perform c4State c4Oracle).2.1
        = some (.outboundGetCloserNodes 2 6 7) ∧
      (PerformClaimed c4State c4Oracle).2.1 = none := by decide

/-- The behaviour of Perform as amended: (1) if an outbound event is
queued, dequeue and return it; else (2) pop one queued inbound event,
translate it and advance the pool, returning the resulting event if one
is produced; otherwise (3) — even when an inbound event was processed —
advance the pool with a Poll event and return its result if any;
otherwise (4) return the first outbound event queued during inbound
processing, or no event. -/
def PerformAmended (p : PooledQueryBehaviour) (orc : BPoolEvent → BPoolState) :
    PooledQueryBehaviour × Option OutEvent × List WaiterAction :=
  match p.nextPendingOutbound with
  | (p1, some o) => (p1, some o, [])
  | (_, none) =>
    let r2 := p.perfomNextInbound orc
    match r2 with
    | (p2, some o, acts) => (p2, some o, acts)
    | (p2, none, acts) =>
      match p2.advancePool (orc .poll) with
      | (p3, some o, acts3) => (p3, some o, acts ++ acts3)
      | (p3, none, acts3) =>
        (p3.nextPendingOutbound.1, p3.nextPendingOutbound.2, acts ++ acts3)

/-- Claim C4 (amended): Perform follows the amended priority order: drain
one outbound event; else process one inbound event and return its pool
result if any; else poll the pool (this also happens after an inbound
event that produced no result) and return its result if any; else return
an outbound event queued during inbound processing, or none. -/
theorem claim_c4_amended (p : PooledQueryBehaviour) (orc : BPoolEvent → BPoolState) :
    p.Perform orc = PerformAmended p orc := by
  cases hpo : p.pendingOutbound with
  | cons o os =>
    simp [PooledQueryBehaviour.Perform, PerformAmended,
      PooledQueryBehaviour.nextPendingOutbound, hpo]
  | nil =>
    rcases h2 : p.perfomNextInbound orc with ⟨p2, oev, acts⟩
    cases oev with
    | some o =>
      simp [PooledQueryBehaviour.Perform, PerformAmended,
        PooledQueryBehaviour.nextPendingOutbound, hpo, h2]
    | none =>
      rcases h3 : p2.advancePool (orc .poll) with ⟨p3, oev3, acts3⟩
      cases oev3 with
      | some o =>
        simp [PooledQueryBehaviour.Perform, PerformAmended,
          PooledQueryBehaviour.nextPendingOutbound, hpo, h2, h3]
      | none =>
        simp [PooledQueryBehaviour.Perform, PerformAmended,
          PooledQueryBehaviour.nextPendingOutbound, hpo, h2, h3]

/-- The outbound side events an inbound event gives rise to: one AddNode
per closer peer of a successful response, one NotifyNonConnectivity for a
failure, nothing otherwise. -/
def sideEvents : InEvent → List OutEvent
  | .getCloserNodesSuccess _ _ closer => closer.map OutEvent.addNode
  | .sendMessageSuccess _ _ closer _ => closer.map OutEvent.addNode
  | .getCloserNodesFailure _ toN _ => [.notifyNonConnectivity toN]
  | .sendMessageFailure _ toN _ => [.notifyNonConnectivity toN]
  | _ => []

/-- Claim C7: processing one inbound event appends exactly its side
events (one AddNode per closer peer on success, one
NotifyNonConnectivity on failure) to the back of the outbound queue, and
Perform emits from the front of that queue; together the side events are
emitted in the same relative order as their triggering inbound events. -/
theorem claim_c7_side_event_order :
    (∀ (p : PooledQueryBehaviour) (orc : BPoolEvent → BPoolState) (e : InEvent)
        (rest : List InEvent), p.pendingInbound = e :: rest →
        ((p.perfomNextInbound orc).1.pendingOutbound = p.pendingOutbound ++ sideEvents e ∧
          (p.perfomNextInbound orc).1.pendingInbound = rest)) ∧
    (∀ (p : PooledQueryBehaviour) (orc : BPoolEvent → BPoolState) (o : OutEvent)
        (os : List OutEvent), p.pendingOutbound = o :: os →
        p.Perform orc = ({ p with pendingOutbound := os }, some o, [])) := by
  constructor
  · intro p orc e rest h
    unfold PooledQueryBehaviour.perfomNextInbound
    rw [h]
    simp only [advancePool_state_eq]
    cases e <;>
      simp [PooledQueryBehaviour.translateInbound, sideEvents,
        PooledQueryBehaviour.queueAddNodeEvents,
        PooledQueryBehaviour.queueNonConnectivityEvent, apply_ite]
  · intro p orc o os h
    unfold PooledQueryBehaviour.Perform
    rw [h]

/-- Witness for claim_c7_side_event_order at a concrete state: a failure
response appends one NotifyNonConnectivity event, and Perform then emits
the front of the queue. -/
theorem claim_c7_witness :
    ((PooledQueryBehaviour.perfomNextInbound
          { waiters := [], pendingOutbound := [],
            pendingInbound := [.getCloserNodesFailure 1 5 ("e")] }
          (fun _ => .idle)).1.pendingOutbound
        = [] ++ sideEvents (.getCloserNodesFailure 1 5 ("e"))) ∧
      (PooledQueryBehaviour.Perform
          { waiters := [], pendingOutbound := [.notifyNonConnectivity 5],
            pendingInbound := [] } (fun _ => .idle)
        = ({ waiters := [], pendingOutbound := [], pendingInbound := [] },
            some (.notifyNonConnectivity 5), [])) :=
  ⟨(claim_c7_side_event_order.1
      { waiters := [], pendingOutbound := [],
        pendingInbound := [.getCloserNodesFailure 1 5 ("e")] }
      (fun _ => .idle) (.getCloserNodesFailure 1 5 ("e")) [] rfl).1,
    claim_c7_side_event_order.2
      { waiters := [], pendingOutbound := [.notifyNonConnectivity 5], pendingInbound := [] }
      (fun _ => .idle) (.notifyNonConnectivity 5) [] rfl⟩

/-- Claim C6: whenever the event at hand maps to a query pool event and
the pool replies that the query finished with zero closest nodes, the
FollowUp immediately returns the Finished state with an empty contacted
list and an empty errors map. -/
theorem handleEvent_queryID (f : FollowUp) (ev : BroadcastEvent) :
    (f.handleEvent ev).1.queryID = f.queryID := by
  cases ev <;> simp only [FollowUp.handleEvent] <;> split <;> rfl

theorem claim_c6_empty_query_finished (f : FollowUp) (ev : BroadcastEvent)
    (h : ((f.handleEvent ev).2).isSome = true) :
    (f.Advance ev (.queryFinished [])).2 = .finished f.queryID [] [] := by
  unfold FollowUp.Advance
  rcases hE : f.handleEvent ev with ⟨f1, pev⟩
  cases pev with
  | none => rw [hE] at h; simp at h
  | some pe =>
    have hq : f1.queryID = f.queryID := by
      have hh := handleEvent_queryID f ev
      rw [hE] at hh
      exact hh
    simp [FollowUp.advancePool, hq]

/-- Witness for claim_c6_empty_query_finished: a fresh FollowUp polled
for the first time while the pool reports an empty query result. -/
theorem claim_c6_witness :
    (FollowUp.Advance (NewFollowUp 1 2 [3]) .poll (.queryFinished [])).2
      = .finished 1 [] [] :=
  claim_c6_empty_query_finished (NewFollowUp 1 2 [3]) .poll (by decide)

/-- Claim C8: validating a configuration succeeds exactly when the clock,
logger and tracer are non-nil and concurrency, timeout, request
concurrency and request timeout are all at least 1 (1ns for the
durations); any failure carries a ConfigurationError naming the
PooledQueryConfig component; and constructing the behaviour from a
non-nil configuration fails exactly on the Validate error and succeeds
otherwise. -/
theorem validate_eq_none_iff (cfg : PooledQueryConfig) :
    cfg.Validate = none ↔
      (cfg.clockSet = true ∧ cfg.loggerSet = true ∧ cfg.tracerSet = true ∧
        1 ≤ cfg.concurrency ∧ 1 ≤ cfg.timeout ∧
        1 ≤ cfg.requestConcurrency ∧ 1 ≤ cfg.requestTimeout) := by
  unfold PooledQueryConfig.Validate
  split_ifs with h1 h2 h3 h4 h5 h6 h7 <;>
    simp_all [Int.not_lt]

theorem claim_c8_validate_iff (cfg : PooledQueryConfig) :
    ((cfg.Validate = none) ↔
      (cfg.clockSet = true ∧ cfg.loggerSet = true ∧ cfg.tracerSet = true ∧
        1 ≤ cfg.concurrency ∧ 1 ≤ cfg.timeout ∧
        1 ≤ cfg.requestConcurrency ∧ 1 ≤ cfg.requestTimeout)) ∧
    (∀ e, cfg.Validate = some e → e.component = ("PooledQueryConfig")) ∧
    (∀ e, cfg.Validate = some e →
      NewPooledQueryBehaviour (some cfg) = .error (.config e)) ∧
    (cfg.Validate = none → NewPooledQueryBehaviour (some cfg) = .ok cfg) := by
  refine ⟨validate_eq_none_iff cfg, ?_, ?_, ?_⟩
  · intro e he
    unfold PooledQueryConfig.Validate at he
    split_ifs at he <;>
      (rw [← Option.some.inj he])
  · intro e he
    simp only [NewPooledQueryBehaviour]
    rw [he]
  · intro h
    obtain ⟨hc, hl, ht, b1, b2, b3, b4⟩ := (validate_eq_none_iff cfg).mp h
    simp only [NewPooledQueryBehaviour]
    rw [h]
    unfold NewPool
    split_ifs <;>
      first
      | rfl
      | (exfalso; simp_all <;> omega)

/-- Witness for claim_c8_validate_iff at the default configuration:
validation succeeds and the behaviour is constructed. -/
theorem claim_c8_witness :
    NewPooledQueryBehaviour (some DefaultPooledQueryConfig)
      = .ok DefaultPooledQueryConfig :=
  (claim_c8_validate_iff DefaultPooledQueryConfig).2.2.2 (by decide)

/-- Claim C9: constructing the behaviour with a nil configuration
succeeds and substitutes the default configuration: concurrency 3,
timeout 5 minutes, request concurrency 3, request timeout 1 minute
(durations in nanoseconds). -/
theorem claim_c9_nil_config_defaults :
    NewPooledQueryBehaviour none = .ok DefaultPooledQueryConfig ∧
    DefaultPooledQueryConfig.concurrency = 3 ∧
    DefaultPooledQueryConfig.timeout = 300000000000 ∧
    DefaultPooledQueryConfig.requestConcurrency = 3 ∧
    DefaultPooledQueryConfig.requestTimeout = 60000000000 := by
  refine ⟨rfl, rfl, rfl, rfl, rfl⟩

/-- Claim C10: for a non-nil byteString, Marshal returns its byte slice
with no error and unmarshalling that output yields an Equal byteString
(round trip); Marshal of a nil receiver is an error; and Equal holds
exactly when both operands are nil or both are non-nil with identical
contents. -/
theorem claim_c10_bytestring :
    (∀ s : List Nat, byteStringMarshal (some s) = .ok s ∧
      byteStringEqual (some (byteStringUnmarshal s)) (some s) = true) ∧
    byteStringMarshal none = .error ("empty byte string") ∧
    (∀ b other : Option (List Nat), byteStringEqual b other = true ↔
      ((b = none ∧ other = none) ∨ (∃ x, b = some x ∧ other = some x))) := by
  refine ⟨fun s => ⟨rfl, ?_⟩, rfl, fun b other => ?_⟩
  · simp [byteStringUnmarshal, byteStringEqual]
  · cases b <;> cases other <;> simp [byteStringEqual]
    exact eq_comm

/-- Witness for claim_c10_bytestring: the round trip at a concrete byte
string, and Equal at concrete operands. -/
theorem claim_c10_witness :
    byteStringEqual (some (byteStringUnmarshal [1, 2])) (some [1, 2]) = true ∧
    byteStringEqual (some [1, 2]) (some [1, 2]) = true :=
  ⟨(claim_c10_bytestring.1 [1, 2]).2,
    (claim_c10_bytestring.2.2 (some [1, 2]) (some [1, 2])).mpr
      (Or.inr ⟨[1, 2], rfl, rfl⟩)⟩

/-! ### Claim C5: Stop moves todo and waiting to failed -/

/-- Auxiliary invariant: before the query phase has produced a closest
list, the todo and waiting sets are empty (todo is only ever filled at
the same moment closest is set to a non-empty list, and waiting is only
filled from todo). Holds for every reachable state under any pool
responses. -/
def Inv0 (f : FollowUp) : Prop :=
  f.closest = [] → f.todo = [] ∧ f.waiting = []

theorem inv0_handleEvent (f : FollowUp) (hf : Inv0 f) (ev : BroadcastEvent) :
    Inv0 (f.handleEvent ev).1 := by
  cases ev <;> simp only [FollowUp.handleEvent]
  · split
    · exact hf
    · exact hf
  · exact hf
  · exact hf
  · intro hcl
    obtain ⟨ht, hw⟩ := hf hcl
    exact ⟨ht, by rw [hw]; rfl⟩
  · intro hcl
    obtain ⟨ht, hw⟩ := hf hcl
    exact ⟨ht, by rw [hw]; rfl⟩
  · split
    · intro hcl
      exact hf hcl
    · exact hf

theorem inv0_advancePool (f : FollowUp) (hf : Inv0 f) (r : FPoolState) :
    Inv0 (f.advancePool r).1 := by
  cases r <;> simp only [FollowUp.advancePool]
  · exact hf
  · exact hf
  · exact hf
  · next cn =>
    split
    · exact hf
    · next hne =>
      intro hcl
      simp only at hcl
      rw [hcl] at hne
      simp at hne
  · exact hf
  · exact hf

theorem finishStep_stop (f : FollowUp) :
    (f.finishStep true).1.todo = [] ∧ (f.finishStep true).1.waiting = [] ∧
    (f.finishStep true).1.failed = cancelAll (cancelAll f.failed f.todo) f.waiting := by
  unfold FollowUp.finishStep
  simp

theorem inv0_finishStep (f : FollowUp) (hf : Inv0 f) (b : Bool) :
    Inv0 (f.finishStep b).1 := by
  cases b
  · unfold FollowUp.finishStep
    simp only [if_false, Bool.false_eq_true]
    cases ht : f.todo with
    | cons n rest =>
      intro hcl
      simp only at hcl
      obtain ⟨ht2, _⟩ := hf hcl
      rw [ht] at ht2
      exact absurd ht2 (by simp)
    | nil =>
      split_ifs <;> exact hf
  · obtain ⟨ha, hb, _⟩ := finishStep_stop f
    intro hcl
    exact ⟨ha, hb⟩

theorem Advance_eq_some (f f1 : FollowUp) (ev : BroadcastEvent) (pe : FPoolEvent)
    (r : FPoolState) (hE : f.handleEvent ev = (f1, some pe)) :
    f.Advance ev r =
      match f1.advancePool r with
      | (f2, some out) => (f2, out)
      | (f2, none) => f2.finishStep (isStopEvent ev) := by
  unfold FollowUp.Advance
  rw [hE]

theorem Advance_eq_none (f f1 : FollowUp) (ev : BroadcastEvent) (r : FPoolState)
    (hE : f.handleEvent ev = (f1, none)) :
    f.Advance ev r = f1.finishStep (isStopEvent ev) := by
  unfold FollowUp.Advance
  rw [hE]

theorem inv0_step (f : FollowUp) (hf : Inv0 f) (ev : BroadcastEvent) (r : FPoolState) :
    Inv0 (f.Advance ev r).1 := by
  rcases hE : f.handleEvent ev with ⟨f1, pev⟩
  have hf1 : Inv0 f1 := by
    have hh := inv0_handleEvent f hf ev
    rw [hE] at hh
    exact hh
  cases pev with
  | none =>
    rw [Advance_eq_none f f1 ev r hE]
    exact inv0_finishStep f1 hf1 _
  | some pe =>
    rw [Advance_eq_some f f1 ev pe r hE]
    rcases hA : f1.advancePool r with ⟨f2, out⟩
    have hf2 : Inv0 f2 := by
      have hh := inv0_advancePool f1 hf1 r
      rw [hA] at hh
      exact hh
    cases out with
    | none => exact inv0_finishStep f2 hf2 _
    | some o => exact hf2

theorem inv0_reachable (f : FollowUp) (h : f.Reachable) : Inv0 f := by
  induction h with
  | init qid target seed => intro hcl; exact ⟨rfl, rfl⟩
  | step g ev r hg ih => exact inv0_step g ih ev r

/-- Claim C5: on a Stop event, every node still in the todo set and
every node in the waiting set of a reachable FollowUp ends up in the
failed map with the error cancelled, and both sets are left empty —
whatever the pool replies. -/
theorem claim_c5_stop_cancels (f : FollowUp) (hr : f.Reachable) (r : FPoolState) :
    (f.Advance .stop r).1.todo = [] ∧
    (f.Advance .stop r).1.waiting = [] ∧
    (∀ n, n ∈ f.todo ∨ n ∈ f.waiting →
      lookupF (f.Advance .stop r).1.failed n = some ("cancelled")) := by
  have h0 := inv0_reachable f hr
  cases hq : f.isQueryDone with
  | true =>
    have hAdv : f.Advance .stop r = f.finishStep true := by
      unfold FollowUp.Advance FollowUp.handleEvent
      simp [hq, isStopEvent]
    rw [hAdv]
    obtain ⟨ha, hb, hc⟩ := finishStep_stop f
    refine ⟨ha, hb, fun n hn => ?_⟩
    rw [hc, lookupF_cancelAll, lookupF_cancelAll]
    rcases hn with hn | hn
    · by_cases hw : n ∈ f.waiting <;> simp [hw, hn]
    · simp [hn]
  | false =>
    have hcl : f.closest = [] := by
      unfold FollowUp.isQueryDone at hq
      simpa using hq
    obtain ⟨ht, hw⟩ := h0 hcl
    have hvac : ∀ n, ¬(n ∈ f.todo ∨ n ∈ f.waiting) := by
      intro n hn
      rcases hn with hn | hn
      · rw [ht] at hn; simp at hn
      · rw [hw] at hn; simp at hn
    cases r with
    | findCloser qid nid tgt =>
      have hAdv : f.Advance .stop (.findCloser qid nid tgt)
          = (f, .findCloser qid nid tgt) := by
        unfold FollowUp.Advance FollowUp.handleEvent
        simp [hq, FollowUp.advancePool, isStopEvent]
      rw [hAdv]
      exact ⟨ht, hw, fun n hn => absurd hn (hvac n)⟩
    | waitingAtCapacity =>
      have hAdv : f.Advance .stop .waitingAtCapacity = (f, .waiting) := by
        unfold FollowUp.Advance FollowUp.handleEvent
        simp [hq, FollowUp.advancePool, isStopEvent]
      rw [hAdv]
      exact ⟨ht, hw, fun n hn => absurd hn (hvac n)⟩
    | waitingWithCapacity =>
      have hAdv : f.Advance .stop .waitingWithCapacity = (f, .waiting) := by
        unfold FollowUp.Advance FollowUp.handleEvent
        simp [hq, FollowUp.advancePool, isStopEvent]
      rw [hAdv]
      exact ⟨ht, hw, fun n hn => absurd hn (hvac n)⟩
    | queryTimeout =>
      have hAdv : f.Advance .stop .queryTimeout = (f, .finished f.queryID [] []) := by
        unfold FollowUp.Advance FollowUp.handleEvent
        simp [hq, FollowUp.advancePool, isStopEvent]
      rw [hAdv]
      exact ⟨ht, hw, fun n hn => absurd hn (hvac n)⟩
    | idle =>
      have hAdv : f.Advance .stop .idle = f.finishStep true := by
        unfold FollowUp.Advance FollowUp.handleEvent
        simp [hq, FollowUp.advancePool, isStopEvent]
      rw [hAdv]
      obtain ⟨ha, hb, _⟩ := finishStep_stop f
      exact ⟨ha, hb, fun n hn => absurd hn (hvac n)⟩
    | queryFinished cn =>
      cases cn with
      | nil =>
        have hAdv : f.Advance .stop (.queryFinished [])
            = (f, .finished f.queryID [] []) := by
          unfold FollowUp.Advance FollowUp.handleEvent
          simp [hq, FollowUp.advancePool, isStopEvent]
        rw [hAdv]
        exact ⟨ht, hw, fun n hn => absurd hn (hvac n)⟩
      | cons a l =>
        have hAdv : f.Advance .stop (.queryFinished (a :: l))
            = FollowUp.finishStep
                { f with closest := a :: l, todo := (a :: l).foldl mapInsert f.todo }
                true := by
          unfold FollowUp.Advance FollowUp.handleEvent
          simp [hq, FollowUp.advancePool, isStopEvent]
        rw [hAdv]
        obtain ⟨ha, hb, _⟩ :=
          finishStep_stop { f with closest := a :: l, todo := (a :: l).foldl mapInsert f.todo }
        exact ⟨ha, hb, fun n hn => absurd hn (hvac n)⟩

/-- Witness for claim_c5_stop_cancels: a freshly created FollowUp
receiving Stop with an idle pool. -/
theorem claim_c5_witness :
    ((FollowUp.Advance (NewFollowUp 1 2 [3]) .stop .idle).1.todo = [] ∧
      (FollowUp.Advance (NewFollowUp 1 2 [3]) .stop .idle).1.waiting = []) :=
  ⟨(claim_c5_stop_cancels (NewFollowUp 1 2 [3]) (.init 1 2 [3]) .idle).1,
    (claim_c5_stop_cancels (NewFollowUp 1 2 [3]) (.init 1 2 [3]) .idle).2.1⟩

/-! ### Claim C3: disjointness and coverage invariants of FollowUp -/

/-- Whether a broadcast state is a StoreRecord instruction for node n. -/
def isStoreOf (o : BroadcastState) (n : Nat) : Bool :=
  match o with
  | .storeRecord _ m _ _ => m == n
  | _ => false

/-- Number of StoreRecord instructions for node n in an output list. -/
def storeCount (outs : List BroadcastState) (n : Nat) : Nat :=
  (outs.filter (fun o => isStoreOf o n)).length

theorem storeCount_append (outs : List BroadcastState) (o : BroadcastState) (n : Nat) :
    storeCount (outs ++ [o]) n
      = storeCount outs n + (if isStoreOf o n then 1 else 0) := by
  unfold storeCount
  rw [List.filter_append, List.length_append]
  by_cases h : isStoreOf o n = true
  · simp [List.filter_cons, h]
  · simp [List.filter_cons, h]

theorem mem_foldl_mapInsert (cn : List Nat) (l : List Nat) (m : Nat) :
    m ∈ List.foldl mapInsert l cn ↔ m ∈ l ∨ m ∈ cn := by
  induction cn generalizing l with
  | nil => simp
  | cons a t ih =>
    rw [List.foldl_cons, ih, mem_mapInsert]
    simp [List.mem_cons]
    tauto

theorem nodup_foldl_mapInsert (cn : List Nat) (l : List Nat) (h : l.Nodup) :
    (List.foldl mapInsert l cn).Nodup := by
  induction cn generalizing l with
  | nil => exact h
  | cons a t ih => exact ih _ (nodup_mapInsert l a h)

/-- A well-formed Advance step: store-record responses refer to a node
currently awaiting a response (the transport answers each StoreRecord
instruction exactly once and the machine is not advanced after a Stop),
and the pool reports a non-empty QueryFinished only while the query
phase is still running (the pool finishes each query at most once). -/
def WfStep (f : FollowUp) (ev : BroadcastEvent) (r : FPoolState) : Prop :=
  (∀ n, ev = .storeRecordSuccess n → n ∈ f.waiting) ∧
  (∀ n e, ev = .storeRecordFailure n e → n ∈ f.waiting) ∧
  (∀ cn, r = .queryFinished cn → cn ≠ [] → f.closest = [])

/-- Runs of a FollowUp over well-formed steps, together with the list of
emitted broadcast states. -/
inductive RunWf : FollowUp → List BroadcastState → Prop where
  | init (qid target : Nat) (seed : List Nat) : RunWf (NewFollowUp qid target seed) []
  | step (f : FollowUp) (outs : List BroadcastState) (ev : BroadcastEvent) (r : FPoolState) :
      RunWf f outs → WfStep f ev r →
      RunWf (f.Advance ev r).1 (outs ++ [(f.Advance ev r).2])

/-- The inductive invariant for claim C3: the four collections are
duplicate-free and pairwise disjoint; before the query phase finishes
everything is empty and nothing has been emitted; afterwards the
collections exactly cover the closest set; and each node receives at
most one StoreRecord, none while it still sits in todo. -/
structure C3Inv (f : FollowUp) (outs : List BroadcastState) : Prop where
  ndTodo : f.todo.Nodup
  ndWaiting : f.waiting.Nodup
  ndSuccess : f.success.Nodup
  ndFailed : (failedKeys f.failed).Nodup
  dTW : f.todo.Disjoint f.waiting
  dTS : f.todo.Disjoint f.success
  dTF : f.todo.Disjoint (failedKeys f.failed)
  dWS : f.waiting.Disjoint f.success
  dWF : f.waiting.Disjoint (failedKeys f.failed)
  dSF : f.success.Disjoint (failedKeys f.failed)
  emptyPre : f.closest = [] →
    f.todo = [] ∧ f.waiting = [] ∧ f.success = [] ∧ f.failed = [] ∧
      ∀ n, storeCount outs n = 0
  unionEq : f.closest ≠ [] → ∀ n,
    (n ∈ f.todo ∨ n ∈ f.waiting ∨ n ∈ f.success ∨ n ∈ failedKeys f.failed) ↔ n ∈ f.closest
  cntLe : ∀ n, storeCount outs n ≤ 1
  cntTodo : ∀ n, n ∈ f.todo → storeCount outs n = 0

theorem handleEvent_closest (f : FollowUp) (ev : BroadcastEvent) :
    (f.handleEvent ev).1.closest = f.closest := by
  cases ev <;> simp only [FollowUp.handleEvent] <;> split <;> rfl

theorem advancePool_out_not_store (f : FollowUp) (r : FPoolState) (f2 : FollowUp)
    (o : BroadcastState) (h : f.advancePool r = (f2, some o)) (n : Nat) :
    isStoreOf o n = false := by
  cases r with
  | findCloser qid nid tgt =>
    simp only [FollowUp.advancePool, Prod.mk.injEq, Option.some.injEq] at h
    rw [← h.2]
    rfl
  | waitingAtCapacity =>
    simp only [FollowUp.advancePool, Prod.mk.injEq, Option.some.injEq] at h
    rw [← h.2]
    rfl
  | waitingWithCapacity =>
    simp only [FollowUp.advancePool, Prod.mk.injEq, Option.some.injEq] at h
    rw [← h.2]
    rfl
  | queryTimeout =>
    simp only [FollowUp.advancePool, Prod.mk.injEq, Option.some.injEq] at h
    rw [← h.2]
    rfl
  | idle => simp [FollowUp.advancePool] at h
  | queryFinished cn =>
    cases cn with
    | nil =>
      simp [FollowUp.advancePool] at h
      rw [← h.2]
      rfl
    | cons a l => simp [FollowUp.advancePool] at h

theorem c3inv_append_nonstore (f : FollowUp) (outs : List BroadcastState)
    (o : BroadcastState) (inv : C3Inv f outs) (ho : ∀ n, isStoreOf o n = false) :
    C3Inv f (outs ++ [o]) := by
  obtain ⟨a1, a2, a3, a4, a5, a6, a7, a8, a9, a10, a11, a12, a13, a14⟩ := inv
  refine ⟨a1, a2, a3, a4, a5, a6, a7, a8, a9, a10, ?_, a12, ?_, ?_⟩
  · intro hcl
    obtain ⟨b1, b2, b3, b4, b5⟩ := a11 hcl
    refine ⟨b1, b2, b3, b4, fun n => ?_⟩
    rw [storeCount_append, ho]
    simpa using b5 n
  · intro n
    rw [storeCount_append, ho]
    simpa using a13 n
  · intro n hn
    rw [storeCount_append, ho]
    simpa using a14 n hn

theorem c3inv_finishStep_false (f : FollowUp) (outs : List BroadcastState)
    (inv : C3Inv f outs) :
    C3Inv (f.finishStep false).1 (outs ++ [(f.finishStep false).2]) := by
  obtain ⟨ndT, ndW, ndS, ndF, dTW, dTS, dTF, dWS, dWF, dSF, emptyPre, unionEq, cntLe,
    cntTodo⟩ := inv
  unfold FollowUp.finishStep
  simp only [Bool.false_eq_true, if_false]
  cases ht : f.todo with
  | nil =>
    split_ifs with h1 h2
    · exact c3inv_append_nonstore f outs _
        ⟨ndT, ndW, ndS, ndF, dTW, dTS, dTF, dWS, dWF, dSF, emptyPre, unionEq, cntLe,
          cntTodo⟩ (fun n => rfl)
    · exact c3inv_append_nonstore f outs _
        ⟨ndT, ndW, ndS, ndF, dTW, dTS, dTF, dWS, dWF, dSF, emptyPre, unionEq, cntLe,
          cntTodo⟩ (fun n => rfl)
    · exact c3inv_append_nonstore f outs _
        ⟨ndT, ndW, ndS, ndF, dTW, dTS, dTF, dWS, dWF, dSF, emptyPre, unionEq, cntLe,
          cntTodo⟩ (fun n => rfl)
  | cons n rest =>
    have hnT : n ∈ f.todo := by rw [ht]; exact List.mem_cons_self n rest
    have hrT : ∀ a, a ∈ rest → a ∈ f.todo := by
      intro a ha
      rw [ht]
      exact List.mem_cons_of_mem n ha
    have hcons := ndT
    rw [ht, List.nodup_cons] at hcons
    obtain ⟨hnrest, ndRest⟩ := hcons
    refine ⟨ndRest, nodup_mapInsert _ _ ndW, ndS, ndF, ?_, ?_, ?_, ?_, ?_, dSF,
      ?_, ?_, ?_, ?_⟩
    · intro a ha hb
      rw [mem_mapInsert] at hb
      rcases hb with hb | rfl
      · exact dTW (hrT a ha) hb
      · exact hnrest ha
    · exact fun a ha hb => dTS (hrT a ha) hb
    · exact fun a ha hb => dTF (hrT a ha) hb
    · intro a ha hb
      rw [mem_mapInsert] at ha
      rcases ha with ha | rfl
      · exact dWS ha hb
      · exact dTS hnT hb
    · intro a ha hb
      rw [mem_mapInsert] at ha
      rcases ha with ha | rfl
      · exact dWF ha hb
      · exact dTF hnT hb
    · intro hcl
      exfalso
      have h2 := (emptyPre hcl).1
      rw [ht] at h2
      exact List.cons_ne_nil n rest h2
    · intro hcl m
      have hu := unionEq hcl m
      constructor
      · rintro (hm | hm | hm | hm)
        · exact hu.mp (Or.inl (hrT m hm))
        · rw [mem_mapInsert] at hm
          rcases hm with hm | rfl
          · exact hu.mp (Or.inr (Or.inl hm))
          · exact hu.mp (Or.inl hnT)
        · exact hu.mp (Or.inr (Or.inr (Or.inl hm)))
        · exact hu.mp (Or.inr (Or.inr (Or.inr hm)))
      · intro hm
        rcases hu.mpr hm with hm2 | hm2 | hm2 | hm2
        · rw [ht] at hm2
          rcases List.mem_cons.mp hm2 with h3 | h3
          · refine Or.inr (Or.inl ?_)
            rw [mem_mapInsert]
            exact Or.inr h3
          · exact Or.inl h3
        · refine Or.inr (Or.inl ?_)
          rw [mem_mapInsert]
          exact Or.inl hm2
        · exact Or.inr (Or.inr (Or.inl hm2))
        · exact Or.inr (Or.inr (Or.inr hm2))
    · intro m
      rw [storeCount_append]
      by_cases hmn : n = m
      · subst hmn
        rw [cntTodo n hnT]
        simp [isStoreOf]
      · have hfalse : isStoreOf
            (BroadcastState.storeRecord f.queryID n f.target (msgFunc f.target)) m
            = false := by
          simp [isStoreOf, hmn]
        rw [hfalse]
        simpa using cntLe m
    · intro m hm
      rw [storeCount_append]
      have hmn : n ≠ m := by
        intro hcon
        rw [hcon] at hnrest
        exact hnrest hm
      have hfalse : isStoreOf
          (BroadcastState.storeRecord f.queryID n f.target (msgFunc f.target)) m
          = false := by
        simp [isStoreOf, hmn]
      rw [hfalse]
      simpa using cntTodo m (hrT m hm)

theorem c3inv_finishStep_true (f : FollowUp) (outs : List BroadcastState)
    (inv : C3Inv f outs) :
    C3Inv (f.finishStep true).1 (outs ++ [(f.finishStep true).2]) := by
  obtain ⟨ndT, ndW, ndS, ndF, dTW, dTS, dTF, dWS, dWF, dSF, emptyPre, unionEq, cntLe,
    cntTodo⟩ := inv
  unfold FollowUp.finishStep
  simp only [if_true, List.length_nil, Nat.lt_irrefl, Bool.true_or, if_false]
  refine ⟨List.nodup_nil, List.nodup_nil, ndS,
      nodup_failedKeys_cancelAll _ _ (nodup_failedKeys_cancelAll _ _ ndF),
      ?_, ?_, ?_, ?_, ?_, ?_, ?_, ?_, ?_, ?_⟩
  · exact fun a ha => absurd ha (List.not_mem_nil a)
  · exact fun a ha => absurd ha (List.not_mem_nil a)
  · exact fun a ha => absurd ha (List.not_mem_nil a)
  · exact fun a ha => absurd ha (List.not_mem_nil a)
  · exact fun a ha => absurd ha (List.not_mem_nil a)
  · intro a ha hb
    rw [mem_failedKeys_cancelAll, mem_failedKeys_cancelAll] at hb
    rcases hb with (hb | hb) | hb
    · exact dSF ha hb
    · exact dTS hb ha
    · exact dWS hb ha
  · intro hcl
    obtain ⟨b1, b2, b3, b4, b5⟩ := emptyPre hcl
    refine ⟨rfl, rfl, b3, ?_, fun m => ?_⟩
    · rw [b1, b2, b4]
      rfl
    · rw [storeCount_append]
      have : isStoreOf (BroadcastState.finished f.queryID f.closest
          (cancelAll (cancelAll f.failed f.todo) f.waiting)) m = false := rfl
      rw [this]
      simpa using b5 m
  · intro hcl m
    have hu := unionEq hcl m
    constructor
    · rintro (hm | hm | hm | hm)
      · exact absurd hm (List.not_mem_nil m)
      · exact absurd hm (List.not_mem_nil m)
      · exact hu.mp (Or.inr (Or.inr (Or.inl hm)))
      · rw [mem_failedKeys_cancelAll, mem_failedKeys_cancelAll] at hm
        rcases hm with (hm | hm) | hm
        · exact hu.mp (Or.inr (Or.inr (Or.inr hm)))
        · exact hu.mp (Or.inl hm)
        · exact hu.mp (Or.inr (Or.inl hm))
    · intro hm
      rcases hu.mpr hm with hm2 | hm2 | hm2 | hm2
      · refine Or.inr (Or.inr (Or.inr ?_))
        rw [mem_failedKeys_cancelAll, mem_failedKeys_cancelAll]
        exact Or.inl (Or.inr hm2)
      · refine Or.inr (Or.inr (Or.inr ?_))
        rw [mem_failedKeys_cancelAll]
        exact Or.inr hm2
      · exact Or.inr (Or.inr (Or.inl hm2))
      · refine Or.inr (Or.inr (Or.inr ?_))
        rw [mem_failedKeys_cancelAll, mem_failedKeys_cancelAll]
        exact Or.inl (Or.inl hm2)
  · intro m
    rw [storeCount_append]
    have : isStoreOf (BroadcastState.finished f.queryID f.closest
        (cancelAll (cancelAll f.failed f.todo) f.waiting)) m = false := rfl
    rw [this]
    simpa using cntLe m
  · intro m hm
    exact absurd hm (List.not_mem_nil m)

theorem c3inv_handleEvent (f : FollowUp) (outs : List BroadcastState)
    (inv : C3Inv f outs) (ev : BroadcastEvent)
    (wfS : ∀ n, ev = .storeRecordSuccess n → n ∈ f.waiting)
    (wfF : ∀ n e, ev = .storeRecordFailure n e → n ∈ f.waiting) :
    C3Inv (f.handleEvent ev).1 outs := by
  obtain ⟨ndT, ndW, ndS, ndF, dTW, dTS, dTF, dWS, dWF, dSF, emptyPre, unionEq, cntLe,
    cntTodo⟩ := inv
  cases ev with
  | stop =>
    simp only [FollowUp.handleEvent]
    split <;>
      exact ⟨ndT, ndW, ndS, ndF, dTW, dTS, dTF, dWS, dWF, dSF, emptyPre, unionEq,
        cntLe, cntTodo⟩
  | nodeResponse nid closer =>
    exact ⟨ndT, ndW, ndS, ndF, dTW, dTS, dTF, dWS, dWF, dSF, emptyPre, unionEq,
      cntLe, cntTodo⟩
  | nodeFailure nid err =>
    exact ⟨ndT, ndW, ndS, ndF, dTW, dTS, dTF, dWS, dWF, dSF, emptyPre, unionEq,
      cntLe, cntTodo⟩
  | poll =>
    simp only [FollowUp.handleEvent]
    split <;>
      exact ⟨ndT, ndW, ndS, ndF, dTW, dTS, dTF, dWS, dWF, dSF, emptyPre, unionEq,
        cntLe, cntTodo⟩
  | storeRecordSuccess nid =>
    have hn : nid ∈ f.waiting := wfS nid rfl
    have hnS : nid ∉ f.success := fun h => dWS hn h
    simp only [FollowUp.handleEvent]
    refine ⟨ndT, nodup_mapDelete _ _ ndW, nodup_mapInsert _ _ ndS, ndF,
      ?_, ?_, dTF, ?_, ?_, ?_, ?_, ?_, cntLe, cntTodo⟩
    · intro a ha hb
      rw [mem_mapDelete] at hb
      exact dTW ha hb.1
    · intro a ha hb
      rw [mem_mapInsert] at hb
      rcases hb with hb | rfl
      · exact dTS ha hb
      · exact dTW ha hn
    · intro a ha hb
      rw [mem_mapDelete] at ha
      rw [mem_mapInsert] at hb
      rcases hb with hb | rfl
      · exact dWS ha.1 hb
      · exact ha.2 rfl
    · intro a ha hb
      rw [mem_mapDelete] at ha
      exact dWF ha.1 hb
    · intro a ha hb
      rw [mem_mapInsert] at ha
      rcases ha with ha | rfl
      · exact dSF ha hb
      · exact dWF hn hb
    · intro hcl
      exfalso
      have h2 := (emptyPre hcl).2.1
      rw [h2] at hn
      exact List.not_mem_nil nid hn
    · intro hcl m
      have hu := unionEq hcl m
      constructor
      · rintro (hm | hm | hm | hm)
        · exact hu.mp (Or.inl hm)
        · rw [mem_mapDelete] at hm
          exact hu.mp (Or.inr (Or.inl hm.1))
        · rw [mem_mapInsert] at hm
          rcases hm with hm | rfl
          · exact hu.mp (Or.inr (Or.inr (Or.inl hm)))
          · exact hu.mp (Or.inr (Or.inl hn))
        · exact hu.mp (Or.inr (Or.inr (Or.inr hm)))
      · intro hm
        rcases hu.mpr hm with hm2 | hm2 | hm2 | hm2
        · exact Or.inl hm2
        · by_cases heq : m = nid
          · subst heq
            refine Or.inr (Or.inr (Or.inl ?_))
            rw [mem_mapInsert]
            exact Or.inr rfl
          · refine Or.inr (Or.inl ?_)
            rw [mem_mapDelete]
            exact ⟨hm2, heq⟩
        · refine Or.inr (Or.inr (Or.inl ?_))
          rw [mem_mapInsert]
          exact Or.inl hm2
        · exact Or.inr (Or.inr (Or.inr hm2))
  | storeRecordFailure nid err =>
    have hn : nid ∈ f.waiting := wfF nid err rfl
    have hnF : nid ∉ failedKeys f.failed := fun h => dWF hn h
    simp only [FollowUp.handleEvent]
    refine ⟨ndT, nodup_mapDelete _ _ ndW, ndS,
      nodup_failedKeys_failedInsert _ _ _ ndF,
      ?_, dTS, ?_, ?_, ?_, ?_, ?_, ?_, cntLe, cntTodo⟩
    · intro a ha hb
      rw [mem_mapDelete] at hb
      exact dTW ha hb.1
    · intro a ha hb
      rw [mem_failedKeys_failedInsert] at hb
      rcases hb with hb | rfl
      · exact dTF ha hb
      · exact dTW ha hn
    · intro a ha hb
      rw [mem_mapDelete] at ha
      exact dWS ha.1 hb
    · intro a ha hb
      rw [mem_mapDelete] at ha
      rw [mem_failedKeys_failedInsert] at hb
      rcases hb with hb | rfl
      · exact dWF ha.1 hb
      · exact ha.2 rfl
    · intro a ha hb
      rw [mem_failedKeys_failedInsert] at hb
      rcases hb with hb | rfl
      · exact dSF ha hb
      · exact dWS hn ha
    · intro hcl
      exfalso
      have h2 := (emptyPre hcl).2.1
      rw [h2] at hn
      exact List.not_mem_nil nid hn
    · intro hcl m
      have hu := unionEq hcl m
      constructor
      · rintro (hm | hm | hm | hm)
        · exact hu.mp (Or.inl hm)
        · rw [mem_mapDelete] at hm
          exact hu.mp (Or.inr (Or.inl hm.1))
        · exact hu.mp (Or.inr (Or.inr (Or.inl hm)))
        · rw [mem_failedKeys_failedInsert] at hm
          rcases hm with hm | rfl
          · exact hu.mp (Or.inr (Or.inr (Or.inr hm)))
          · exact hu.mp (Or.inr (Or.inl hn))
      · intro hm
        rcases hu.mpr hm with hm2 | hm2 | hm2 | hm2
        · exact Or.inl hm2
        · by_cases heq : m = nid
          · subst heq
            refine Or.inr (Or.inr (Or.inr ?_))
            rw [mem_failedKeys_failedInsert]
            exact Or.inr rfl
          · refine Or.inr (Or.inl ?_)
            rw [mem_mapDelete]
            exact ⟨hm2, heq⟩
        · exact Or.inr (Or.inr (Or.inl hm2))
        · refine Or.inr (Or.inr (Or.inr ?_))
          rw [mem_failedKeys_failedInsert]
          exact Or.inl hm2

theorem c3inv_advancePool (f : FollowUp) (outs : List BroadcastState)
    (inv : C3Inv f outs) (r : FPoolState)
    (wfQ : ∀ cn, r = .queryFinished cn → cn ≠ [] → f.closest = []) :
    C3Inv (f.advancePool r).1 outs := by
  cases r with
  | findCloser qid nid tgt => exact inv
  | waitingAtCapacity => exact inv
  | waitingWithCapacity => exact inv
  | queryTimeout => exact inv
  | idle => exact inv
  | queryFinished cn =>
    cases cn with
    | nil => exact inv
    | cons a l =>
      have hcl : f.closest = [] := wfQ (a :: l) rfl (List.cons_ne_nil a l)
      obtain ⟨ndT, ndW, ndS, ndF, dTW, dTS, dTF, dWS, dWF, dSF, emptyPre, unionEq,
        cntLe, cntTodo⟩ := inv
      obtain ⟨hT, hW, hS, hF, hCnt⟩ := emptyPre hcl
      have hcond : ((a :: l).length == 0) = false := by simp
      simp only [FollowUp.advancePool, hcond, Bool.false_eq_true, if_false]
      refine ⟨nodup_foldl_mapInsert _ _ ndT, ndW, ndS, ndF, ?_, ?_, ?_, dWS, dWF,
        dSF, ?_, ?_, cntLe, ?_⟩
      · intro x hx hy
        rw [hW] at hy
        exact List.not_mem_nil x hy
      · intro x hx hy
        rw [hS] at hy
        exact List.not_mem_nil x hy
      · intro x hx hy
        rw [hF] at hy
        exact List.not_mem_nil x hy
      · intro hcon
        exact absurd hcon (List.cons_ne_nil a l)
      · intro _ m
        rw [mem_foldl_mapInsert, hT, hW, hS, hF]
        simp [failedKeys]
      · intro m hm
        exact hCnt m

theorem c3inv_step (f : FollowUp) (outs : List BroadcastState) (inv : C3Inv f outs)
    (ev : BroadcastEvent) (r : FPoolState) (wf : WfStep f ev r) :
    C3Inv (f.Advance ev r).1 (outs ++ [(f.Advance ev r).2]) := by
  obtain ⟨wfS, wfF, wfQ⟩ := wf
  rcases hE : f.handleEvent ev with ⟨f1, pev⟩
  have inv1 : C3Inv f1 outs := by
    have hh := c3inv_handleEvent f outs inv ev wfS wfF
    rw [hE] at hh
    exact hh
  have hcl1 : f1.closest = f.closest := by
    have hh := handleEvent_closest f ev
    rw [hE] at hh
    exact hh
  cases pev with
  | none =>
    rw [Advance_eq_none f f1 ev r hE]
    cases isStopEvent ev with
    | true => exact c3inv_finishStep_true f1 outs inv1
    | false => exact c3inv_finishStep_false f1 outs inv1
  | some pe =>
    rw [Advance_eq_some f f1 ev pe r hE]
    rcases hA : f1.advancePool r with ⟨f2, out⟩
    have inv2 : C3Inv f2 outs := by
      have hh := c3inv_advancePool f1 outs inv1 r (fun cn hr hcn => by
        rw [hcl1] at *
        exact wfQ cn hr hcn)
      rw [hA] at hh
      exact hh
    cases out with
    | some o =>
      exact c3inv_append_nonstore f2 outs o inv2
        (fun n => advancePool_out_not_store f1 r f2 o hA n)
    | none =>
      cases isStopEvent ev with
      | true => exact c3inv_finishStep_true f2 outs inv2
      | false => exact c3inv_finishStep_false f2 outs inv2

theorem c3inv_of_runWf (f : FollowUp) (outs : List BroadcastState)
    (h : RunWf f outs) : C3Inv f outs := by
  induction h with
  | init qid target seed =>
    refine ⟨List.nodup_nil, List.nodup_nil, List.nodup_nil, List.nodup_nil,
      ?_, ?_, ?_, ?_, ?_, ?_, ?_, ?_, ?_, ?_⟩
    · exact fun a ha => absurd ha (List.not_mem_nil a)
    · exact fun a ha => absurd ha (List.not_mem_nil a)
    · exact fun a ha => absurd ha (List.not_mem_nil a)
    · exact fun a ha => absurd ha (List.not_mem_nil a)
    · exact fun a ha => absurd ha (List.not_mem_nil a)
    · exact fun a ha => absurd ha (List.not_mem_nil a)
    · exact fun _ => ⟨rfl, rfl, rfl, rfl, fun n => rfl⟩
    · intro hcl
      exact absurd rfl hcl
    · exact fun n => Nat.zero_le 1
    · exact fun n hn => absurd hn (List.not_mem_nil n)
  | step f outs ev r h wf ih => exact c3inv_step f outs ih ev r wf

/-- Event trace refuting claim C3: the query discovers node 5 and a
StoreRecord for 5 goes out; a Stop moves 5 from waiting into failed with
the error cancelled; then the in-flight store request's success response
arrives, putting 5 into success as well — success and failed are no
longer disjoint. -/
def c3Trace : List (BroadcastEvent × FPoolState) :=
  [(.poll, .findCloser 1 5 2),
   (.nodeResponse 5 [], .queryFinished [5]),
   (.stop, .idle),
   (.storeRecordSuccess 5, .idle)]

/-- Claim C3 is false as stated: after the concrete trace c3Trace
(a legal sequence of Advance events) node 5 is in the success set and in
the failed map at the same time. -/
theorem claim_c3_counterexample :
    5 ∈ (FollowUp.run (NewFollowUp 1 2 [5]) c3Trace).success ∧
    5 ∈ failedKeys (FollowUp.run (NewFollowUp 1 2 [5]) c3Trace).failed := by decide

/-- Claim C3 (amended): under well-formed runs — every store-record
response names a node currently in waiting, and the pool reports a
non-empty QueryFinished only while closest is still empty — the todo,
waiting, success and failed key sets of a FollowUp are pairwise disjoint;
once the query phase has finished their union equals the closest set; at
most one StoreRecord is emitted per node; and when todo and waiting have
drained, the successes and failures together count every distinct closest
node exactly once. -/
theorem claim_c3_amended (f : FollowUp) (outs : List BroadcastState)
    (h : RunWf f outs) :
    (f.todo.Disjoint f.waiting ∧ f.todo.Disjoint f.success ∧
      f.todo.Disjoint (failedKeys f.failed) ∧ f.waiting.Disjoint f.success ∧
      f.waiting.Disjoint (failedKeys f.failed) ∧
      f.success.Disjoint (failedKeys f.failed)) ∧
    (f.closest ≠ [] → ∀ n,
      (n ∈ f.todo ∨ n ∈ f.waiting ∨ n ∈ f.success ∨ n ∈ failedKeys f.failed)
        ↔ n ∈ f.closest) ∧
    (∀ n, storeCount outs n ≤ 1) ∧
    (f.todo = [] → f.waiting = [] → f.closest ≠ [] →
      f.success.length + f.failed.length = f.closest.dedup.length) := by
  have inv := c3inv_of_runWf f outs h
  refine ⟨⟨inv.dTW, inv.dTS, inv.dTF, inv.dWS, inv.dWF, inv.dSF⟩,
    inv.unionEq, inv.cntLe, ?_⟩
  intro hT hW hclne
  have hnd : (f.success ++ failedKeys f.failed).Nodup := by
    rw [List.nodup_append]
    exact ⟨inv.ndSuccess, inv.ndFailed, inv.dSF⟩
  have hmem : ∀ m, m ∈ f.success ++ failedKeys f.failed ↔ m ∈ f.closest.dedup := by
    intro m
    rw [List.mem_append, List.mem_dedup]
    have hu := inv.unionEq hclne m
    rw [hT, hW] at hu
    simpa using hu
  have hperm : (f.success ++ failedKeys f.failed).Perm f.closest.dedup :=
    (List.perm_ext_iff_of_nodup hnd (List.nodup_dedup _)).mpr hmem
  have hlen := hperm.length_eq
  rw [List.length_append] at hlen
  unfold failedKeys at hlen
  rw [List.length_map] at hlen
  exact hlen

/-- Witness for claim_c3_amended: a freshly created FollowUp after the
empty well-formed run. -/
theorem claim_c3_witness :
    (NewFollowUp 1 2 [3]).todo.Disjoint (NewFollowUp 1 2 [3]).waiting ∧
    (∀ n, storeCount [] n ≤ 1) :=
  ⟨(claim_c3_amended (NewFollowUp 1 2 [3]) [] (RunWf.init 1 2 [3])).1.1,
    (claim_c3_amended (NewFollowUp 1 2 [3]) [] (RunWf.init 1 2 [3])).2.2.1⟩

end Zikade
